import Mathlib

/-!
# Verification of the SEM zoom-region locator
  (src/plugins/publication-figures/scripts/sem/template_matching.py)

A shallow embedding of `template_matching.py` over exact rationals.  Images
are 2D grids of rationals (`Arr2`); numpy float arithmetic is modelled by
exact `ℚ` arithmetic, and `np.sqrt` by `ratSqrt`, which agrees with the real
square root on perfect rational squares (every concrete input evaluated in
this development keeps all square-root arguments perfect squares, where the
model coincides with the code).

External collaborators of the core (scipy's `sobel` and `correlate2d`,
skimage's `resize`) are not repository code; where a branch of the source
calls one of them, the in-repository fallback branch is embedded exactly and
the external primitive is modelled from the spec (each such definition says
so in its doc comment).
-/

set_option maxRecDepth 40000

/-- The `1e-8` constant used by the source to avoid division by zero. -/
def eps : ℚ := 1 / 100000000

/-- Model of `np.sqrt` on exact rationals: exact on perfect squares
(`ratSqrt (a^2/b^2) = a/b` for a reduced fraction), an under-approximation
elsewhere.  All claims settled here depend on square roots only through
perfect-square arguments or through sign/shape information. -/
def ratSqrt (q : ℚ) : ℚ := (Nat.sqrt (q.num.toNat * q.den) : ℚ) / (q.den : ℚ)

/-- Python's `int()` on a rational: truncation toward zero. -/
def pyTrunc (q : ℚ) : ℤ := if 0 ≤ q then ⌊q⌋ else -⌊-q⌋

/-- A 2D numpy array of floats: a shape `(h, w)` plus a total pixel function
(reads outside the shape never occur along the code paths embedded here). -/
structure Arr2 where
  h : ℕ
  w : ℕ
  pix : ℕ → ℕ → ℚ

/-- Sum of all entries of an array (`np.sum`). -/
def arrSum (A : Arr2) : ℚ :=
  ∑ i in Finset.range A.h, ∑ j in Finset.range A.w, A.pix i j

/-- `np.mean` over all entries. -/
def arrMean (A : Arr2) : ℚ := arrSum A / ((A.h * A.w : ℕ) : ℚ)

/-- `np.std` over all entries: the square root of the mean squared deviation
(population standard deviation, numpy's default). -/
def arrStd (A : Arr2) : ℚ :=
  ratSqrt (arrMean ⟨A.h, A.w, fun i j => (A.pix i j - arrMean A) ^ 2⟩)

/-- All entries of an array in row-major order, as `(row, col, value)`
triples: the order `np.argmax` scans a flattened array in. -/
def entriesOf (A : Arr2) : List (ℕ × ℕ × ℚ) :=
  (List.range A.h).flatMap fun i => (List.range A.w).map fun j => (i, j, A.pix i j)

/-- The first row-major entry attaining the maximal value, computed exactly as
`np.max` / `np.unravel_index (np.argmax ..)` pick it: a left fold that only
replaces the running best on a strictly larger value. -/
def argmaxEntry (A : Arr2) : ℕ × ℕ × ℚ :=
  (entriesOf A).foldl (fun b e => if b.2.2 < e.2.2 then e else b)
    ((entriesOf A).headD (0, 0, 0))

/-- `np.max` over a (nonempty) array: the value of the first maximal entry. -/
def arrMax (A : Arr2) : ℚ := (argmaxEntry A).2.2

/-- `np.unravel_index (np.argmax corr) corr.shape`: the `(row, col)` of the
first row-major maximal entry. -/
def argmaxPos (A : Arr2) : ℕ × ℕ := ((argmaxEntry A).1, (argmaxEntry A).2.1)

/-- Embeds `_sobel_magnitude` (template_matching.py lines 92-111), in its
in-repository fallback branch: `np.diff` along each axis with the first
column/row replicated (`prepend`), combined as `sqrt (gx^2 + gy^2)`.  The
primary branch calls `scipy.ndimage.sobel`, an external collaborator (spec
section 6, "Edge Operator"); the fallback is the branch whose code is in the
repository.  At `j = 0` the Nat subtraction `j - 1 = 0` makes
`gx = pix i 0 - pix i 0 = 0`, exactly the `prepend` convention. -/
def _sobel_magnitude (img : Arr2) : Arr2 :=
  ⟨img.h, img.w, fun i j =>
    ratSqrt ((img.pix i j - img.pix i (j - 1)) ^ 2
           + (img.pix i j - img.pix (i - 1) j) ^ 2)⟩

/-- Modelled from the spec: the external Resize Primitive (spec section 6;
`skimage.transform.resize`, whose code is not in the repository) resamples to
an exact target shape by area averaging (spec section 4.2).  The block
partition embedded here is the one the in-repository block-averaging fallback
of `_downsample` (lines 134-144) uses: block sizes `h / nh`, `w / nw`
truncating, each output cell the mean of its block (an empty block, possible
only when upsampling, yields 0 where numpy would produce NaN). -/
def resizeTo (img : Arr2) (nh nw : ℕ) : Arr2 :=
  ⟨nh, nw, fun i j =>
    (∑ u in Finset.range (img.h / nh), ∑ v in Finset.range (img.w / nw),
      img.pix (i * (img.h / nh) + u) (j * (img.w / nw) + v)) /
    ((img.h / nh * (img.w / nw) : ℕ) : ℚ)⟩

/-- The target height `int (img.shape[0] / factor)` of `_downsample`
(line 125), clamped to `ℕ`. -/
def downTargetH (img : Arr2) (factor : ℚ) : ℕ := (pyTrunc ((img.h : ℚ) / factor)).toNat

/-- The target width `int (img.shape[1] / factor)` of `_downsample`
(line 126), clamped to `ℕ`. -/
def downTargetW (img : Arr2) (factor : ℚ) : ℕ := (pyTrunc ((img.w : ℚ) / factor)).toNat

/-- Embeds `_downsample` (lines 114-144): target shape `(int (h / factor),
int (w / factor))`; if either target dimension is below 1 the input is
returned unchanged, otherwise the image is resized to the target shape. -/
def _downsample (img : Arr2) (factor : ℚ) : Arr2 :=
  if downTargetH img factor < 1 ∨ downTargetW img factor < 1 then img
  else resizeTo img (downTargetH img factor) (downTargetW img factor)

/-- The zero-mean, unit-variance normalization `_fft_correlate` applies to
both of its inputs (lines 162-168): subtract the mean, then divide by the
standard deviation of the mean-subtracted array plus `1e-8`. -/
def normalizeArr (A : Arr2) : Arr2 :=
  ⟨A.h, A.w, fun i j =>
    (A.pix i j - arrMean A) /
    (arrStd ⟨A.h, A.w, fun u v => A.pix u v - arrMean A⟩ + eps)⟩

/-- Modelled from the spec: the external Fast Correlation Primitive (spec
section 6; `scipy.signal.correlate2d mode='valid'`, whose code is not in the
repository).  Valid-mode cross-correlation, defined on inputs where the
template fits the image in both dimensions: output shape
`(imageH - templateH + 1, imageW - templateW + 1)` (spec section 4.3). -/
def validCorrelate (image template : Arr2) : Arr2 :=
  ⟨image.h - template.h + 1, image.w - template.w + 1, fun i j =>
    ∑ u in Finset.range template.h, ∑ v in Finset.range template.w,
      image.pix (i + u) (j + v) * template.pix u v⟩

/-- `template_norm` of `_naive_correlate` (line 203): the root of the sum of
squared template entries. -/
def templateNorm (template : Arr2) : ℚ :=
  ratSqrt (∑ u in Finset.range template.h, ∑ v in Finset.range template.w,
    template.pix u v ^ 2)

/-- `window_norm` of `_naive_correlate` (line 208) for the window at `(i, j)`:
the root of the sum of squared window entries. -/
def windowNorm (image template : Arr2) (i j : ℕ) : ℚ :=
  ratSqrt (∑ u in Finset.range template.h, ∑ v in Finset.range template.w,
    image.pix (i + u) (j + v) ^ 2)

/-- `np.dot (window, template_flat)` of `_naive_correlate` (line 210). -/
def windowDot (image template : Arr2) (i j : ℕ) : ℚ :=
  ∑ u in Finset.range template.h, ∑ v in Finset.range template.w,
    image.pix (i + u) (j + v) * template.pix u v

/-- Embeds `_naive_correlate` (lines 180-212): sliding-window normalized
correlation; when the template exceeds the image in either dimension
(`out_h <= 0 or out_w <= 0`) it returns the degenerate `1x1` surface
`np.array [[0]]`.  A window entry is set only when both the window norm and
the template norm are positive, else it stays at the `np.zeros` value 0. -/
def _naive_correlate (image template : Arr2) : Arr2 :=
  if (image.h : ℤ) - template.h + 1 ≤ 0 ∨ (image.w : ℤ) - template.w + 1 ≤ 0 then
    ⟨1, 1, fun _ _ => 0⟩
  else
    ⟨((image.h : ℤ) - template.h + 1).toNat, ((image.w : ℤ) - template.w + 1).toNat,
      fun i j =>
        if 0 < windowNorm image template i j ∧ 0 < templateNorm template then
          windowDot image template i j /
            (windowNorm image template i j * templateNorm template)
        else 0⟩

/-- Embeds `_fft_correlate` (lines 147-177): normalize template and image,
then try the external valid-mode correlation primitive; per the spec
(sections 4.3 and 7) that primitive fails with `InvalidTemplateSize` when the
template exceeds the image in either dimension, and the `except` branch
recovers by calling `_naive_correlate` on the (already normalized) inputs. -/
def _fft_correlate (image template : Arr2) : Arr2 :=
  if template.h ≤ image.h ∧ template.w ≤ image.w then
    validCorrelate (normalizeArr image) (normalizeArr template)
  else _naive_correlate (normalizeArr image) (normalizeArr template)

/-- Embeds `np.linspace a b n` as `find_zoom_region` uses it (line 42):
`n` evenly spaced values from `a` to `b`, endpoint included when `n ≥ 2`;
`np.linspace a b 1 = [a]` and `np.linspace a b 0 = []`. -/
def linspace (a b : ℚ) (n : ℕ) : List ℚ :=
  if n ≤ 1 then (List.range n).map fun _ => a
  else (List.range n).map fun k : ℕ => a + (b - a) * (k : ℚ) / ((n : ℚ) - 1)

/-- The fields `find_zoom_region` stores for the best candidate beyond its
correlation: `scale`, `position` (row, col) and `template_shape` (h, w). -/
structure Winner where
  scale : ℚ
  pos : ℕ × ℕ
  tshape : ℕ × ℕ
deriving DecidableEq

/-- The `best_result` accumulator of `find_zoom_region`: a running best
correlation (initially `-1`) and, once a candidate has been kept, its data
(initially `scale = None`). -/
structure BestSt where
  correlation : ℚ
  found : Option Winner
deriving DecidableEq

/-- The correlation surface of one scale candidate inside `find_zoom_region`
(line 52): the high-mag gradient map downsampled by the scale, correlated
against the low-mag gradient map. -/
def candSurf (low_grad high_grad : Arr2) (scale : ℚ) : Arr2 :=
  _fft_correlate low_grad (_downsample high_grad scale)

/-- The skip test of `find_zoom_region` (line 48): the candidate's template
has a dimension below 10. -/
def candSkip (high_grad : Arr2) (scale : ℚ) : Prop :=
  (_downsample high_grad scale).h < 10 ∨ (_downsample high_grad scale).w < 10

instance (high_grad : Arr2) (scale : ℚ) : Decidable (candSkip high_grad scale) := by
  unfold candSkip
  infer_instance

/-- The peak of one candidate's correlation surface (line 55). -/
def candPeak (low_grad high_grad : Arr2) (scale : ℚ) : ℚ :=
  arrMax (candSurf low_grad high_grad scale)

/-- One iteration of the scale loop of `find_zoom_region` (lines 44-63):
downsample the high-mag gradient map, skip the candidate when either
dimension of the template is below 10, otherwise correlate and keep the
candidate exactly when its peak strictly exceeds the running best. -/
def stepScale (low_grad high_grad : Arr2) (st : BestSt) (scale : ℚ) : BestSt :=
  if candSkip high_grad scale then st
  else if st.correlation < candPeak low_grad high_grad scale then
    ⟨candPeak low_grad high_grad scale,
     some ⟨scale, argmaxPos (candSurf low_grad high_grad scale),
           ((_downsample high_grad scale).h, (_downsample high_grad scale).w)⟩⟩
  else st

/-- The whole scale loop of `find_zoom_region`: gradients of both inputs,
then a left fold of `stepScale` over the `np.linspace` scale grid starting
from `correlation = -1, scale = None`. -/
def findBest (low_mag_img high_mag_img : Arr2) (scale_range : ℚ × ℚ)
    (steps : ℕ) : BestSt :=
  (linspace scale_range.1 scale_range.2 steps).foldl
    (stepScale (_sobel_magnitude low_mag_img) (_sobel_magnitude high_mag_img))
    ⟨-1, none⟩

/-- The result record of `find_zoom_region`. -/
structure FindResult where
  box : ℤ × ℤ × ℤ × ℤ
  scale : ℚ
  correlation : ℚ
  center : ℤ × ℤ
deriving DecidableEq

/-- Embeds `find_zoom_region` (lines 11-89).  Raising
`ValueError "Could not find zoom region - no correlation peak found"` is an
`Except.error`; otherwise the winning position `(y, x)` and template shape
`(h, w)` become `box = (x, y, x + w, y + h)` and
`center = (int (x + w/2), int (y + h/2))`. -/
def find_zoom_region (low_mag_img high_mag_img : Arr2)
    (scale_range : ℚ × ℚ := (8, 12)) (steps : ℕ := 20) :
    Except String FindResult :=
  match findBest low_mag_img high_mag_img scale_range steps with
  | ⟨_, none⟩ => .error "Could not find zoom region - no correlation peak found"
  | ⟨c, some wn⟩ =>
    .ok { box := ((wn.pos.2 : ℤ), (wn.pos.1 : ℤ),
                  (wn.pos.2 : ℤ) + (wn.tshape.2 : ℤ),
                  (wn.pos.1 : ℤ) + (wn.tshape.1 : ℤ)),
          scale := wn.scale,
          correlation := c,
          center := (pyTrunc ((wn.pos.2 : ℚ) + (wn.tshape.2 : ℚ) / 2),
                     pyTrunc ((wn.pos.1 : ℚ) + (wn.tshape.1 : ℚ) / 2)) }

/-- Python slice-endpoint resolution for `a` against axis length `n`:
a negative endpoint counts from the end (clamped below at 0), a nonnegative
one is clamped above at `n`. -/
def sliceIdx (a : ℤ) (n : ℕ) : ℕ :=
  if a < 0 then ((n : ℤ) + a).toNat else min a.toNat n

/-- The crop `low_mag_img[y1:y2, x1:x2]` of line 231, with Python slice
semantics on each axis; the Nat subtraction `stop - start` is exactly
Python's `max (stop - start) 0` slice length. -/
def cropArr (A : Arr2) (x1 y1 x2 y2 : ℤ) : Arr2 :=
  ⟨sliceIdx y2 A.h - sliceIdx y1 A.h, sliceIdx x2 A.w - sliceIdx x1 A.w,
   fun i j => A.pix (sliceIdx y1 A.h + i) (sliceIdx x1 A.w + j)⟩

/-- The `region` of `validate_zoom_match` (line 231): the low-mag image
cropped to the box `(x1, y1, x2, y2)`. -/
def cropOf (low_mag_img : Arr2) (box : ℤ × ℤ × ℤ × ℤ) : Arr2 :=
  cropArr low_mag_img box.1 box.2.1 box.2.2.1 box.2.2.2

/-- The result record of `validate_zoom_match`. -/
structure ValidateResult where
  valid : Bool
  correlation : ℚ
  message : String
deriving DecidableEq

/-- The scalar correlation `validate_zoom_match` computes on a non-empty crop
(lines 240-252): resize the high-mag image to the crop's shape (the primary
branch's external resize primitive, modelled by `resizeTo`), normalize both
by `(x - mean) / (std + 1e-8)`, and take the mean elementwise product. -/
def validateCorrelation (low_mag_img high_mag_img : Arr2)
    (box : ℤ × ℤ × ℤ × ℤ) : ℚ :=
  arrMean ⟨(cropOf low_mag_img box).h, (cropOf low_mag_img box).w, fun i j =>
    (((cropOf low_mag_img box).pix i j - arrMean (cropOf low_mag_img box)) /
      (arrStd (cropOf low_mag_img box) + eps)) *
    (((resizeTo high_mag_img (cropOf low_mag_img box).h
        (cropOf low_mag_img box).w).pix i j -
      arrMean (resizeTo high_mag_img (cropOf low_mag_img box).h
        (cropOf low_mag_img box).w)) /
      (arrStd (resizeTo high_mag_img (cropOf low_mag_img box).h
        (cropOf low_mag_img box).w) + eps))⟩

/-- The f-string `'Correlation {correlation:.3f} below threshold {threshold}'`
of line 259; the embedding prints the exact rationals where Python formats the
correlation to three decimals (no claim inspects this string beyond it being
distinct from the empty-region message). -/
def belowThresholdMsg (c t : ℚ) : String :=
  "Correlation " ++ toString c ++ " below threshold " ++ toString t

/-- Embeds `validate_zoom_match` (lines 215-260): crop the low-mag image to
the box; on an empty crop return the empty-region record; otherwise compute
`validateCorrelation` and pass exactly when it strictly exceeds the
threshold. -/
def validate_zoom_match (low_mag_img high_mag_img : Arr2)
    (box : ℤ × ℤ × ℤ × ℤ) (threshold : ℚ := 3 / 10) : ValidateResult :=
  if (cropOf low_mag_img box).h * (cropOf low_mag_img box).w = 0 then
    ⟨false, 0, "Empty region - box outside image bounds"⟩
  else if threshold < validateCorrelation low_mag_img high_mag_img box then
    ⟨true, validateCorrelation low_mag_img high_mag_img box, "Match validated"⟩
  else
    ⟨false, validateCorrelation low_mag_img high_mag_img box,
     belowThresholdMsg (validateCorrelation low_mag_img high_mag_img box) threshold⟩

/-! ## Basic facts about entries and the row-major argmax -/

theorem mem_entriesOf {A : Arr2} {e : ℕ × ℕ × ℚ} :
    e ∈ entriesOf A ↔ e.1 < A.h ∧ e.2.1 < A.w ∧ e.2.2 = A.pix e.1 e.2.1 := by
  unfold entriesOf
  constructor
  · intro h
    simp only [List.mem_flatMap, List.mem_map, List.mem_range] at h
    obtain ⟨i, hi, j, hj, rfl⟩ := h
    exact ⟨hi, hj, rfl⟩
  · intro ⟨h1, h2, h3⟩
    simp only [List.mem_flatMap, List.mem_map, List.mem_range]
    exact ⟨e.1, h1, e.2.1, h2, by rw [← h3]⟩

theorem entriesOf_head (A : Arr2) (hh : 0 < A.h) (hw : 0 < A.w) :
    (entriesOf A).headD (0, 0, 0) = (0, 0, A.pix 0 0) := by
  obtain ⟨h, w, pix⟩ := A
  simp only at hh hw
  obtain ⟨h2, rfl⟩ : ∃ m, h = m + 1 := ⟨h - 1, by omega⟩
  obtain ⟨w2, rfl⟩ : ∃ m, w = m + 1 := ⟨w - 1, by omega⟩
  unfold entriesOf
  rw [List.range_succ_eq_map, List.range_succ_eq_map]
  simp

/-- The combining step of `argmaxEntry` returns one of its two arguments. -/
theorem argmaxStep_cases (b e : ℕ × ℕ × ℚ) :
    (if b.2.2 < e.2.2 then e else b) = b ∨ (if b.2.2 < e.2.2 then e else b) = e := by
  split
  · exact Or.inr rfl
  · exact Or.inl rfl

theorem foldl_argmax_mem :
    ∀ (l : List (ℕ × ℕ × ℚ)) (b : ℕ × ℕ × ℚ),
      l.foldl (fun b e => if b.2.2 < e.2.2 then e else b) b = b ∨
      l.foldl (fun b e => if b.2.2 < e.2.2 then e else b) b ∈ l
  | [], _ => Or.inl rfl
  | a :: l, b => by
    rw [List.foldl_cons]
    rcases foldl_argmax_mem l (if b.2.2 < a.2.2 then a else b) with h | h
    · rw [h]
      rcases argmaxStep_cases b a with h2 | h2
      · exact Or.inl h2
      · right
        rw [h2]
        exact List.mem_cons_self a l
    · exact Or.inr (List.mem_cons_of_mem _ h)

theorem foldl_argmax_le_start :
    ∀ (l : List (ℕ × ℕ × ℚ)) (b : ℕ × ℕ × ℚ),
      b.2.2 ≤ (l.foldl (fun b e => if b.2.2 < e.2.2 then e else b) b).2.2
  | [], _ => le_refl _
  | a :: l, b => by
    rw [List.foldl_cons]
    refine le_trans ?_ (foldl_argmax_le_start l _)
    split
    · exact le_of_lt (by assumption)
    · exact le_refl _

theorem foldl_argmax_le_mem :
    ∀ (l : List (ℕ × ℕ × ℚ)) (b e : ℕ × ℕ × ℚ), e ∈ l →
      e.2.2 ≤ (l.foldl (fun b e => if b.2.2 < e.2.2 then e else b) b).2.2
  | a :: l, b, e, he => by
    rw [List.foldl_cons]
    rcases List.mem_cons.mp he with rfl | h
    · refine le_trans ?_ (foldl_argmax_le_start l _)
      split
      · exact le_refl _
      · exact le_of_not_lt (by assumption)
    · exact foldl_argmax_le_mem l _ e h

theorem argmaxEntry_mem (A : Arr2) (hh : 0 < A.h) (hw : 0 < A.w) :
    argmaxEntry A ∈ entriesOf A := by
  unfold argmaxEntry
  rcases foldl_argmax_mem (entriesOf A) ((entriesOf A).headD (0, 0, 0)) with h | h
  · rw [h, entriesOf_head A hh hw]
    have : ((0, 0, A.pix 0 0) : ℕ × ℕ × ℚ) ∈ entriesOf A :=
      mem_entriesOf.mpr ⟨hh, hw, rfl⟩
    exact this
  · exact h

theorem argmaxPos_lt (A : Arr2) (hh : 0 < A.h) (hw : 0 < A.w) :
    (argmaxPos A).1 < A.h ∧ (argmaxPos A).2 < A.w := by
  have := mem_entriesOf.mp (argmaxEntry_mem A hh hw)
  exact ⟨this.1, this.2.1⟩

/-- `np.max` bounds every entry of a nonempty array from above. -/
theorem pix_le_arrMax (A : Arr2) (i j : ℕ) (hi : i < A.h) (hj : j < A.w) :
    A.pix i j ≤ arrMax A := by
  unfold arrMax argmaxEntry
  have : ((i, j, A.pix i j) : ℕ × ℕ × ℚ) ∈ entriesOf A :=
    mem_entriesOf.mpr ⟨hi, hj, rfl⟩
  exact foldl_argmax_le_mem (entriesOf A) _ (i, j, A.pix i j) this

/-- The peak value is the value of the array at the argmax position. -/
theorem arrMax_eq_pix_argmaxPos (A : Arr2) (hh : 0 < A.h) (hw : 0 < A.w) :
    arrMax A = A.pix (argmaxPos A).1 (argmaxPos A).2 := by
  have := mem_entriesOf.mp (argmaxEntry_mem A hh hw)
  exact this.2.2

/-! ## Zero arrays -/

/-- Arrays that are zero at every index (not only inside the shape):
the gradient maps, downsampled templates and correlation surfaces built from
all-zero test images are all of this kind. -/
def IsZeroArr (A : Arr2) : Prop := ∀ i j, A.pix i j = 0

/-- The all-zero image of a given shape used by the concrete runs below. -/
def zeroArr (h w : ℕ) : Arr2 := ⟨h, w, fun _ _ => 0⟩

theorem isZero_zeroArr (h w : ℕ) : IsZeroArr (zeroArr h w) := fun _ _ => rfl

theorem arrSum_of_zero {A : Arr2} (hz : IsZeroArr A) : arrSum A = 0 := by
  unfold arrSum
  exact Finset.sum_eq_zero fun i _ => Finset.sum_eq_zero fun j _ => hz i j

theorem arrMean_of_zero {A : Arr2} (hz : IsZeroArr A) : arrMean A = 0 := by
  unfold arrMean
  rw [arrSum_of_zero hz, zero_div]

theorem ratSqrt_zero : ratSqrt 0 = 0 := by
  unfold ratSqrt
  norm_num

theorem arrStd_of_zero {A : Arr2} (hz : IsZeroArr A) : arrStd A = 0 := by
  unfold arrStd
  have h0 : arrMean ⟨A.h, A.w, fun i j => (A.pix i j - arrMean A) ^ 2⟩ = 0 := by
    refine arrMean_of_zero fun i j => ?_
    show (A.pix i j - arrMean A) ^ 2 = 0
    rw [hz i j, arrMean_of_zero hz, sub_zero]
    norm_num
  rw [h0, ratSqrt_zero]

theorem isZero_sobel {A : Arr2} (hz : IsZeroArr A) :
    IsZeroArr (_sobel_magnitude A) := by
  intro i j
  show ratSqrt ((A.pix i j - A.pix i (j - 1)) ^ 2
      + (A.pix i j - A.pix (i - 1) j) ^ 2) = 0
  rw [hz, hz, hz]
  norm_num [ratSqrt_zero]

theorem isZero_resizeTo {A : Arr2} (hz : IsZeroArr A) (nh nw : ℕ) :
    IsZeroArr (resizeTo A nh nw) := by
  intro i j
  show (∑ u in Finset.range (A.h / nh), ∑ v in Finset.range (A.w / nw),
      A.pix (i * (A.h / nh) + u) (j * (A.w / nw) + v)) /
    ((A.h / nh * (A.w / nw) : ℕ) : ℚ) = 0
  rw [Finset.sum_eq_zero fun u _ => Finset.sum_eq_zero fun v _ => hz _ _, zero_div]

theorem isZero_downsample {A : Arr2} (hz : IsZeroArr A) (f : ℚ) :
    IsZeroArr (_downsample A f) := by
  unfold _downsample
  split
  · exact hz
  · exact isZero_resizeTo hz _ _

theorem isZero_normalize {A : Arr2} (hz : IsZeroArr A) :
    IsZeroArr (normalizeArr A) := by
  intro i j
  show (A.pix i j - arrMean A) /
    (arrStd ⟨A.h, A.w, fun u v => A.pix u v - arrMean A⟩ + eps) = 0
  rw [hz, arrMean_of_zero hz, sub_zero, zero_div]

theorem isZero_validCorrelate {A B : Arr2} (ha : IsZeroArr A) :
    IsZeroArr (validCorrelate A B) := by
  intro i j
  show (∑ u in Finset.range B.h, ∑ v in Finset.range B.w,
      A.pix (i + u) (j + v) * B.pix u v) = 0
  exact Finset.sum_eq_zero fun u _ => Finset.sum_eq_zero fun v _ => by
    rw [ha, zero_mul]

theorem isZero_naive {A B : Arr2} (ha : IsZeroArr A) :
    IsZeroArr (_naive_correlate A B) := by
  unfold _naive_correlate
  split
  · intro i j
    rfl
  · intro i j
    show (if 0 < windowNorm A B i j ∧ 0 < templateNorm B then
        windowDot A B i j / (windowNorm A B i j * templateNorm B)
      else 0) = 0
    split
    · unfold windowDot
      rw [Finset.sum_eq_zero fun u _ => Finset.sum_eq_zero fun v _ => by
        rw [ha, zero_mul], zero_div]
    · rfl

theorem isZero_fft {A B : Arr2} (ha : IsZeroArr A) :
    IsZeroArr (_fft_correlate A B) := by
  unfold _fft_correlate
  split
  · exact isZero_validCorrelate (isZero_normalize ha)
  · exact isZero_naive (isZero_normalize ha)

/-! ## Shapes of correlation surfaces -/

/-- A correlation surface always has at least one row and one column: the
valid-mode primitive yields `imageDim - templateDim + 1 ≥ 1` rows in `ℕ`, and
the fallback yields either the degenerate `1x1` surface or a positive shape. -/
theorem fft_correlate_pos (A B : Arr2) :
    0 < (_fft_correlate A B).h ∧ 0 < (_fft_correlate A B).w := by
  unfold _fft_correlate
  split
  · refine ⟨?_, ?_⟩
    · show 0 < A.h - B.h + 1
      omega
    · show 0 < A.w - B.w + 1
      omega
  · unfold _naive_correlate
    split
    · exact ⟨Nat.one_pos, Nat.one_pos⟩
    · rename_i hno
      push_neg at hno
      rw [show (normalizeArr A).h = A.h from rfl, show (normalizeArr B).h = B.h from rfl,
          show (normalizeArr A).w = A.w from rfl, show (normalizeArr B).w = B.w from rfl] at hno
      refine ⟨?_, ?_⟩
      · show 0 < ((A.h : ℤ) - B.h + 1).toNat
        omega
      · show 0 < ((A.w : ℤ) - B.w + 1).toNat
        omega

/-- On a fitting template the correlation engine takes the fast path and
returns the valid-mode shape. -/
theorem fft_correlate_shape (A B : Arr2) (hh : B.h ≤ A.h) (hw : B.w ≤ A.w) :
    (_fft_correlate A B).h = A.h - B.h + 1 ∧
    (_fft_correlate A B).w = A.w - B.w + 1 := by
  unfold _fft_correlate
  rw [if_pos ⟨show (normalizeArr B).h ≤ (normalizeArr A).h from hh,
              show (normalizeArr B).w ≤ (normalizeArr A).w from hw⟩]
  exact ⟨rfl, rfl⟩

/-- On a fitting template the sliding-window fallback also returns the
valid-mode shape. -/
theorem naive_correlate_shape (A B : Arr2) (hh : B.h ≤ A.h) (hw : B.w ≤ A.w) :
    (_naive_correlate A B).h = A.h - B.h + 1 ∧
    (_naive_correlate A B).w = A.w - B.w + 1 := by
  unfold _naive_correlate
  rw [if_neg (by push_neg; omega)]
  refine ⟨?_, ?_⟩
  · show ((A.h : ℤ) - B.h + 1).toNat = A.h - B.h + 1
    omega
  · show ((A.w : ℤ) - B.w + 1).toNat = A.w - B.w + 1
    omega

/-- A template exceeding the image in either dimension makes the correlation
engine fall back, and the fallback degenerates to the `1x1` zero surface. -/
theorem fft_correlate_oversized (A B : Arr2)
    (hover : A.h < B.h ∨ A.w < B.w) :
    _fft_correlate A B = ⟨1, 1, fun _ _ => 0⟩ := by
  unfold _fft_correlate
  rw [if_neg (by
    intro ⟨h1, h2⟩
    rcases hover with h | h
    · exact absurd (le_trans h h1) (lt_irrefl A.h)
    · exact absurd (le_trans h h2) (lt_irrefl A.w))]
  unfold _naive_correlate
  rw [if_pos (by
    show ((A.h : ℤ) - B.h + 1 ≤ 0) ∨ ((A.w : ℤ) - B.w + 1 ≤ 0)
    omega)]

/-! ## Argmax over zero arrays -/

theorem foldl_argmax_stay (l : List (ℕ × ℕ × ℚ)) (b : ℕ × ℕ × ℚ)
    (hb : ∀ e ∈ l, ¬ b.2.2 < e.2.2) :
    l.foldl (fun b e => if b.2.2 < e.2.2 then e else b) b = b := by
  induction l with
  | nil => rfl
  | cons a l ih =>
    rw [List.foldl_cons, if_neg (hb a (List.mem_cons_self a l))]
    exact ih fun e he => hb e (List.mem_cons_of_mem a he)

theorem argmaxEntry_of_zero (A : Arr2) (hz : IsZeroArr A)
    (hh : 0 < A.h) (hw : 0 < A.w) : argmaxEntry A = (0, 0, 0) := by
  unfold argmaxEntry
  rw [entriesOf_head A hh hw, hz]
  refine foldl_argmax_stay _ _ fun e he => ?_
  have := (mem_entriesOf.mp he).2.2
  rw [this, hz]
  exact lt_irrefl 0

theorem arrMax_of_zero (A : Arr2) (hz : IsZeroArr A)
    (hh : 0 < A.h) (hw : 0 < A.w) : arrMax A = 0 := by
  unfold arrMax
  rw [argmaxEntry_of_zero A hz hh hw]

theorem argmaxPos_of_zero (A : Arr2) (hz : IsZeroArr A)
    (hh : 0 < A.h) (hw : 0 < A.w) : argmaxPos A = (0, 0) := by
  unfold argmaxPos
  rw [argmaxEntry_of_zero A hz hh hw]

/-! ## The scale loop on all-zero images -/

theorem candPeak_of_zero (lg hg : Arr2) (hlg : IsZeroArr lg) (_hhg : IsZeroArr hg)
    (s : ℚ) : candPeak lg hg s = 0 := by
  unfold candPeak candSurf
  have hz : IsZeroArr (_fft_correlate lg (_downsample hg s)) :=
    isZero_fft hlg
  have hp := fft_correlate_pos lg (_downsample hg s)
  exact arrMax_of_zero _ hz hp.1 hp.2

theorem stepScale_zero_start (lg hg : Arr2) (hlg : IsZeroArr lg)
    (hhg : IsZeroArr hg) (s : ℚ) :
    stepScale lg hg ⟨-1, none⟩ s =
      if candSkip hg s then ⟨-1, none⟩
      else ⟨0, some ⟨s, (0, 0),
        ((_downsample hg s).h, (_downsample hg s).w)⟩⟩ := by
  unfold stepScale
  by_cases hs : candSkip hg s
  · rw [if_pos hs, if_pos hs]
  · rw [if_neg hs, if_neg hs]
    have hpk : candPeak lg hg s = 0 := candPeak_of_zero lg hg hlg hhg s
    have hpos : argmaxPos (candSurf lg hg s) = (0, 0) := by
      unfold candSurf
      have hp := fft_correlate_pos lg (_downsample hg s)
      exact argmaxPos_of_zero _ (isZero_fft hlg) hp.1 hp.2
    rw [hpk, hpos, if_pos (by norm_num : (-1 : ℚ) < 0)]

theorem stepScale_zero_found (lg hg : Arr2) (hlg : IsZeroArr lg)
    (hhg : IsZeroArr hg) (wn : Winner) (s : ℚ) :
    stepScale lg hg ⟨0, some wn⟩ s = ⟨0, some wn⟩ := by
  unfold stepScale
  by_cases hs : candSkip hg s
  · rw [if_pos hs]
  · rw [if_neg hs, candPeak_of_zero lg hg hlg hhg s,
      if_neg (lt_irrefl (0 : ℚ))]

theorem linspace_one (a b : ℚ) : linspace a b 1 = [a] := by
  unfold linspace
  rw [if_pos (le_refl 1)]
  rfl

/-- A run of `find_zoom_region` on two all-zero images with a single,
non-skipped scale candidate: the candidate's zero surface peaks at value 0,
position `(0, 0)`, so the call succeeds with the downsampled template's shape
as the box extent. -/
theorem find_zero_single (low high : Arr2) (hl : IsZeroArr low)
    (hh : IsZeroArr high) (a b : ℚ)
    (hskip : ¬ candSkip (_sobel_magnitude high) a) :
    find_zoom_region low high (a, b) 1 =
      .ok ⟨(0, 0, ((_downsample (_sobel_magnitude high) a).w : ℤ),
               ((_downsample (_sobel_magnitude high) a).h : ℤ)), a, 0,
           (pyTrunc (((_downsample (_sobel_magnitude high) a).w : ℚ) / 2),
            pyTrunc (((_downsample (_sobel_magnitude high) a).h : ℚ) / 2))⟩ := by
  have hlg : IsZeroArr (_sobel_magnitude low) := isZero_sobel hl
  have hhg : IsZeroArr (_sobel_magnitude high) := isZero_sobel hh
  unfold find_zoom_region findBest
  rw [show (((a, b) : ℚ × ℚ)).1 = a from rfl, show (((a, b) : ℚ × ℚ)).2 = b from rfl,
    linspace_one, List.foldl_cons, List.foldl_nil,
    stepScale_zero_start _ _ hlg hhg a, if_neg hskip]
  simp

theorem find_all_skipped_single (low high : Arr2) (a b : ℚ)
    (hskip : candSkip (_sobel_magnitude high) a) :
    find_zoom_region low high (a, b) 1 =
      .error "Could not find zoom region - no correlation peak found" := by
  unfold find_zoom_region findBest
  rw [show (((a, b) : ℚ × ℚ)).1 = a from rfl, show (((a, b) : ℚ × ℚ)).2 = b from rfl,
    linspace_one, List.foldl_cons, List.foldl_nil]
  unfold stepScale
  rw [if_pos hskip]

/-! ## Concrete runs on all-zero images (shared by witnesses and
counterexamples below; every arithmetic fact here is shape-level, so kernel
evaluation never touches pixel data) -/

theorem pyTrunc_five : pyTrunc (5 : ℚ) = 5 := by with_unfolding_all rfl

theorem run_z10_z10 :
    find_zoom_region (zeroArr 10 10) (zeroArr 10 10) (1, 1) 1 =
      .ok ⟨(0, 0, 10, 10), 1, 0, (5, 5)⟩ := by
  rw [find_zero_single (zeroArr 10 10) (zeroArr 10 10) (isZero_zeroArr 10 10)
    (isZero_zeroArr 10 10) 1 1 (of_decide_eq_true (by with_unfolding_all rfl))]
  have h1 : (_downsample (_sobel_magnitude (zeroArr 10 10)) 1).h = 10 := by
    with_unfolding_all rfl
  have h2 : (_downsample (_sobel_magnitude (zeroArr 10 10)) 1).w = 10 := by
    with_unfolding_all rfl
  rw [h1, h2]
  norm_num [pyTrunc_five]

theorem run_z10_z12 :
    find_zoom_region (zeroArr 10 10) (zeroArr 12 12) (1, 1) 1 =
      .ok ⟨(0, 0, 12, 12), 1, 0, (6, 6)⟩ := by
  rw [find_zero_single (zeroArr 10 10) (zeroArr 12 12) (isZero_zeroArr 10 10)
    (isZero_zeroArr 12 12) 1 1 (of_decide_eq_true (by with_unfolding_all rfl))]
  have h1 : (_downsample (_sobel_magnitude (zeroArr 12 12)) 1).h = 12 := by
    with_unfolding_all rfl
  have h2 : (_downsample (_sobel_magnitude (zeroArr 12 12)) 1).w = 12 := by
    with_unfolding_all rfl
  rw [h1, h2]
  have h3 : pyTrunc (6 : ℚ) = 6 := by with_unfolding_all rfl
  norm_num [h3]

theorem run_z10_z13 :
    find_zoom_region (zeroArr 10 10) (zeroArr 13 13) (1, 1) 1 =
      .ok ⟨(0, 0, 13, 13), 1, 0, (6, 6)⟩ := by
  rw [find_zero_single (zeroArr 10 10) (zeroArr 13 13) (isZero_zeroArr 10 10)
    (isZero_zeroArr 13 13) 1 1 (of_decide_eq_true (by with_unfolding_all rfl))]
  have h1 : (_downsample (_sobel_magnitude (zeroArr 13 13)) 1).h = 13 := by
    with_unfolding_all rfl
  have h2 : (_downsample (_sobel_magnitude (zeroArr 13 13)) 1).w = 13 := by
    with_unfolding_all rfl
  rw [h1, h2]
  have h3 : pyTrunc ((13 : ℚ) / 2) = 6 := by with_unfolding_all rfl
  norm_num
  exact h3

theorem run_z11_z11 :
    find_zoom_region (zeroArr 11 11) (zeroArr 11 11) (1, 1) 1 =
      .ok ⟨(0, 0, 11, 11), 1, 0, (5, 5)⟩ := by
  rw [find_zero_single (zeroArr 11 11) (zeroArr 11 11) (isZero_zeroArr 11 11)
    (isZero_zeroArr 11 11) 1 1 (of_decide_eq_true (by with_unfolding_all rfl))]
  have h1 : (_downsample (_sobel_magnitude (zeroArr 11 11)) 1).h = 11 := by
    with_unfolding_all rfl
  have h2 : (_downsample (_sobel_magnitude (zeroArr 11 11)) 1).w = 11 := by
    with_unfolding_all rfl
  rw [h1, h2]
  have h3 : pyTrunc ((11 : ℚ) / 2) = 5 := by with_unfolding_all rfl
  norm_num
  exact h3

/-- The run the spec's "scale range exhaustion" example describes: scale
range `(1000, 2000)` on 256x256 images.  Downsampling by 1000 would target a
shape below one pixel, so `_downsample` returns the 256x256 gradient map
unchanged; the candidate is therefore not skipped and the call succeeds. -/
theorem run_z256_z256 :
    find_zoom_region (zeroArr 256 256) (zeroArr 256 256) (1000, 2000) 1 =
      .ok ⟨(0, 0, 256, 256), 1000, 0, (128, 128)⟩ := by
  rw [find_zero_single (zeroArr 256 256) (zeroArr 256 256) (isZero_zeroArr 256 256)
    (isZero_zeroArr 256 256) 1000 2000 (of_decide_eq_true (by with_unfolding_all rfl))]
  have h1 : (_downsample (_sobel_magnitude (zeroArr 256 256)) 1000).h = 256 := by
    with_unfolding_all rfl
  have h2 : (_downsample (_sobel_magnitude (zeroArr 256 256)) 1000).w = 256 := by
    with_unfolding_all rfl
  rw [h1, h2]
  have h3 : pyTrunc (128 : ℚ) = 128 := by with_unfolding_all rfl
  norm_num [h3]

theorem run_z10_z5 :
    find_zoom_region (zeroArr 10 10) (zeroArr 5 5) (1, 1) 1 =
      .error "Could not find zoom region - no correlation peak found" :=
  find_all_skipped_single (zeroArr 10 10) (zeroArr 5 5) 1 1
    (of_decide_eq_true (by with_unfolding_all rfl))

/-! ## The scale-loop invariant

`loopInv lg hg l st` says what the `best_result` accumulator holds after the
scale loop has processed the candidate list `l`: either nothing was kept
(`scale = None`) and every non-skipped candidate peaked at or below the
initial `-1`, or the kept winner is a non-skipped candidate of `l` whose peak
value, argmax position and template shape fill the accumulator, every
candidate before it stays strictly below that peak (the first-encountered
maximum is kept, because only a strictly larger peak replaces the best), and
every candidate after it stays at or below it. -/
def loopInv (lg hg : Arr2) (l : List ℚ) (st : BestSt) : Prop :=
  match st.found with
  | none => st.correlation = -1 ∧
      ∀ s ∈ l, ¬ candSkip hg s → candPeak lg hg s ≤ -1
  | some wn =>
      -1 < st.correlation ∧
      ¬ candSkip hg wn.scale ∧
      st.correlation = candPeak lg hg wn.scale ∧
      wn.pos = argmaxPos (candSurf lg hg wn.scale) ∧
      wn.tshape = ((_downsample hg wn.scale).h, (_downsample hg wn.scale).w) ∧
      ∃ l1 l2, l = l1 ++ wn.scale :: l2 ∧
        (∀ s ∈ l1, ¬ candSkip hg s → candPeak lg hg s < st.correlation) ∧
        (∀ s ∈ l2, ¬ candSkip hg s → candPeak lg hg s ≤ st.correlation)

theorem loopInv_nil (lg hg : Arr2) : loopInv lg hg [] ⟨-1, none⟩ := by
  unfold loopInv
  exact ⟨rfl, by simp⟩

/-- Every non-skipped candidate of the processed list peaks at or below the
accumulator's correlation. -/
theorem loopInv_le (lg hg : Arr2) (l : List ℚ) :
    ∀ st : BestSt, loopInv lg hg l st →
      ∀ s ∈ l, ¬ candSkip hg s → candPeak lg hg s ≤ st.correlation
  | ⟨c, none⟩, h, s, hs, hns => by
    unfold loopInv at h
    exact le_of_le_of_eq (h.2 s hs hns) h.1.symm
  | ⟨c, some wn⟩, h, s, hs, hns => by
    unfold loopInv at h
    obtain ⟨hc, hsk, hcorr, hpos, hsh, l1, l2, hl, h1, h2⟩ := h
    rw [hl] at hs
    rcases List.mem_append.mp hs with hmem | hmem
    · exact le_of_lt (h1 s hmem hns)
    · rcases List.mem_cons.mp hmem with rfl | hmem
      · exact le_of_eq hcorr.symm
      · exact h2 s hmem hns

/-- The accumulator's correlation never drops below the initial `-1`. -/
theorem loopInv_neg_one_le (lg hg : Arr2) (l : List ℚ) :
    ∀ st : BestSt, loopInv lg hg l st → -1 ≤ st.correlation
  | ⟨c, none⟩, h => by
    unfold loopInv at h
    exact le_of_eq h.1.symm
  | ⟨c, some wn⟩, h => by
    unfold loopInv at h
    exact le_of_lt h.1

theorem loopInv_step (lg hg : Arr2) (l : List ℚ) (a : ℚ) :
    ∀ st : BestSt, loopInv lg hg l st →
      loopInv lg hg (l ++ [a]) (stepScale lg hg st a) := by
  intro st h
  have hle := loopInv_le lg hg l st h
  have hge := loopInv_neg_one_le lg hg l st h
  unfold stepScale
  by_cases hskip : candSkip hg a
  · rw [if_pos hskip]
    obtain ⟨c, fo⟩ := st
    cases fo with
    | none =>
      unfold loopInv at h ⊢
      refine ⟨h.1, fun s hs hns => ?_⟩
      rcases List.mem_append.mp hs with hmem | hmem
      · exact h.2 s hmem hns
      · rw [List.mem_singleton.mp hmem] at hns
        exact absurd hskip hns
    | some wn =>
      unfold loopInv at h ⊢
      obtain ⟨hc, hsk, hcorr, hpos, hsh, l1, l2, hl, h1, h2⟩ := h
      refine ⟨hc, hsk, hcorr, hpos, hsh, l1, l2 ++ [a], by rw [hl]; simp, h1,
        fun s hs hns => ?_⟩
      rcases List.mem_append.mp hs with hmem | hmem
      · exact h2 s hmem hns
      · rw [List.mem_singleton.mp hmem] at hns
        exact absurd hskip hns
  · rw [if_neg hskip]
    by_cases hlt : st.correlation < candPeak lg hg a
    · rw [if_pos hlt]
      unfold loopInv
      refine ⟨lt_of_le_of_lt hge hlt, hskip, rfl, rfl, rfl, l, [], rfl,
        fun s hs hns => lt_of_le_of_lt (hle s hs hns) hlt, by simp⟩
    · rw [if_neg hlt]
      have hpa : candPeak lg hg a ≤ st.correlation := le_of_not_lt hlt
      obtain ⟨c, fo⟩ := st
      cases fo with
      | none =>
        unfold loopInv at h ⊢
        refine ⟨h.1, fun s hs hns => ?_⟩
        rcases List.mem_append.mp hs with hmem | hmem
        · exact h.2 s hmem hns
        · rw [List.mem_singleton.mp hmem]
          exact le_of_le_of_eq hpa h.1
      | some wn =>
        unfold loopInv at h ⊢
        obtain ⟨hc, hsk, hcorr, hpos, hsh, l1, l2, hl, h1, h2⟩ := h
        refine ⟨hc, hsk, hcorr, hpos, hsh, l1, l2 ++ [a], by rw [hl]; simp, h1,
          fun s hs hns => ?_⟩
        rcases List.mem_append.mp hs with hmem | hmem
        · exact h2 s hmem hns
        · rw [List.mem_singleton.mp hmem]
          exact hpa

/-- The invariant holds of `findBest`'s final accumulator. -/
theorem loopInv_findBest (low high : Arr2) (sr : ℚ × ℚ) (n : ℕ) :
    loopInv (_sobel_magnitude low) (_sobel_magnitude high)
      (linspace sr.1 sr.2 n) (findBest low high sr n) := by
  unfold findBest
  generalize linspace sr.1 sr.2 n = l
  induction l using List.reverseRecOn with
  | nil => exact loopInv_nil _ _
  | append_singleton l a ih =>
    rw [List.foldl_append, List.foldl_cons, List.foldl_nil]
    exact loopInv_step _ _ l a _ ih

/-! ## Inverting the result of `find_zoom_region` -/

theorem find_error_iff (low high : Arr2) (sr : ℚ × ℚ) (n : ℕ) :
    (find_zoom_region low high sr n =
        .error "Could not find zoom region - no correlation peak found") ↔
      (findBest low high sr n).found = none := by
  unfold find_zoom_region
  obtain ⟨c, fo⟩ : ∃ c fo, findBest low high sr n = ⟨c, fo⟩ :=
    ⟨(findBest low high sr n).correlation, (findBest low high sr n).found, rfl⟩
  obtain ⟨fo, hfb⟩ := fo
  rw [hfb]
  cases fo with
  | none => simp
  | some wn => simp

theorem find_ok_inv (low high : Arr2) (sr : ℚ × ℚ) (n : ℕ) (r : FindResult)
    (h : find_zoom_region low high sr n = .ok r) :
    ∃ wn : Winner, (findBest low high sr n).found = some wn ∧
      r.box = ((wn.pos.2 : ℤ), (wn.pos.1 : ℤ),
               (wn.pos.2 : ℤ) + (wn.tshape.2 : ℤ),
               (wn.pos.1 : ℤ) + (wn.tshape.1 : ℤ)) ∧
      r.scale = wn.scale ∧
      r.correlation = (findBest low high sr n).correlation ∧
      r.center = (pyTrunc ((wn.pos.2 : ℚ) + (wn.tshape.2 : ℚ) / 2),
                  pyTrunc ((wn.pos.1 : ℚ) + (wn.tshape.1 : ℚ) / 2)) := by
  unfold find_zoom_region at h
  obtain ⟨c, fo, hfb⟩ : ∃ c fo, findBest low high sr n = ⟨c, fo⟩ :=
    ⟨(findBest low high sr n).correlation, (findBest low high sr n).found, rfl⟩
  rw [hfb] at h
  cases fo with
  | none => exact absurd h (by simp)
  | some wn =>
    refine ⟨wn, by rw [hfb], ?_⟩
    have hr := (Except.ok.injEq _ _).mp h
    rw [← hr, hfb]
    exact ⟨rfl, rfl, rfl, rfl⟩

/-! ## Claim C1: failure condition of the locator -/

/-- **C1** (amended).  `find_zoom_region` fails with the no-match `ValueError`
iff every non-skipped scale candidate's correlation surface peaks at or below
the initial best of `-1` (in particular whenever every candidate is skipped,
and whenever no surface is computed at all, since the quantifier is then
vacuous); and it does fail whenever every candidate's template is smaller
than 10x10 (every candidate skipped).  The claim's stronger "only if every
candidate is skipped or no surface was computed" direction, and its example
`scale_range = (1000, 2000)` on a 256x256 image, are refuted by
`C1_counterexample`: a computed surface whose peak is at or below `-1` also
fails, and the example input does not even fail. -/
theorem C1_locate_fails_iff (low high : Arr2) (sr : ℚ × ℚ) (n : ℕ) :
    (find_zoom_region low high sr n =
        .error "Could not find zoom region - no correlation peak found" ↔
      ∀ s ∈ linspace sr.1 sr.2 n,
        ¬ candSkip (_sobel_magnitude high) s →
          candPeak (_sobel_magnitude low) (_sobel_magnitude high) s ≤ -1) ∧
    ((∀ s ∈ linspace sr.1 sr.2 n, candSkip (_sobel_magnitude high) s) →
      find_zoom_region low high sr n =
        .error "Could not find zoom region - no correlation peak found") := by
  have hinv := loopInv_findBest low high sr n
  obtain ⟨c, fo, hfb⟩ : ∃ c fo, findBest low high sr n = ⟨c, fo⟩ :=
    ⟨(findBest low high sr n).correlation, (findBest low high sr n).found, rfl⟩
  rw [hfb] at hinv
  have hiff : find_zoom_region low high sr n =
      .error "Could not find zoom region - no correlation peak found" ↔
      ∀ s ∈ linspace sr.1 sr.2 n,
        ¬ candSkip (_sobel_magnitude high) s →
          candPeak (_sobel_magnitude low) (_sobel_magnitude high) s ≤ -1 := by
    rw [find_error_iff, hfb]
    cases fo with
    | none =>
      unfold loopInv at hinv
      simp only [true_iff]
      exact hinv.2
    | some wn =>
      unfold loopInv at hinv
      obtain ⟨hc, hsk, hcorr, _, _, l1, l2, hl, _, _⟩ := hinv
      simp only [reduceCtorEq, false_iff, not_forall]
      refine ⟨wn.scale, by rw [hl]; exact List.mem_append_right l1 (List.mem_cons_self _ _),
        hsk, ?_⟩
      rw [← hcorr]
      exact not_le.mpr hc
  exact ⟨hiff, fun hall => hiff.mpr fun s hs hns => absurd (hall s hs) hns⟩

theorem C1_witness :
    find_zoom_region (zeroArr 10 10) (zeroArr 5 5) (1, 1) 1 =
      .error "Could not find zoom region - no correlation peak found" :=
  (C1_locate_fails_iff (zeroArr 10 10) (zeroArr 5 5) (1, 1) 1).2
    (of_decide_eq_true (by with_unfolding_all rfl))

/-- **C1** counterexample.  On the claim's own example — scale range
`(1000, 2000)` on 256x256 images — `_downsample` would target a shape below
one pixel and therefore returns the gradient map unchanged: the template is
256x256, not "smaller than 10x10", the candidate is not skipped, a surface is
computed, and the call succeeds instead of failing with the no-match error. -/
theorem C1_counterexample :
    find_zoom_region (zeroArr 256 256) (zeroArr 256 256) (1000, 2000) 1 =
      .ok ⟨(0, 0, 256, 256), 1000, 0, (128, 128)⟩ ∧
    ¬ candSkip (_sobel_magnitude (zeroArr 256 256)) 1000 ∧
    (_downsample (_sobel_magnitude (zeroArr 256 256)) 1000).h = 256 ∧
    (_downsample (_sobel_magnitude (zeroArr 256 256)) 1000).w = 256 :=
  ⟨run_z256_z256, of_decide_eq_true (by with_unfolding_all rfl),
   by with_unfolding_all rfl, by with_unfolding_all rfl⟩

/-! ## Claim C4: validation of an empty crop -/

/-- **C4** (confirmed).  Whenever the crop of the low-mag image is empty —
whatever made it so: a box outside the image, `x1 ≥ x2`, `y1 ≥ y2` — the
validator returns, without raising, `valid = false`, `correlation = 0` and
the empty-region message. -/
theorem C4_validate_empty (low high : Arr2) (box : ℤ × ℤ × ℤ × ℤ) (t : ℚ)
    (hempty : (cropOf low box).h * (cropOf low box).w = 0) :
    validate_zoom_match low high box t =
      ⟨false, 0, "Empty region - box outside image bounds"⟩ := by
  unfold validate_zoom_match
  rw [if_pos hempty]

theorem C4_witness :
    validate_zoom_match (zeroArr 4 4) (zeroArr 4 4) (0, 0, 0, 0) (3 / 10) =
      ⟨false, 0, "Empty region - box outside image bounds"⟩ :=
  C4_validate_empty (zeroArr 4 4) (zeroArr 4 4) (0, 0, 0, 0) (3 / 10)
    (of_decide_eq_true (by with_unfolding_all rfl))

/-! ## Claim C5: validation formula on a non-empty crop -/

/-- The validation correlation as spec section 4.5 words it: resample the
high-mag image to the crop's exact shape, zero-mean/unit-variance normalize
both (dividing by `std + 1e-8`), and take the mean elementwise product.
Stated separately from the embedding `validateCorrelation` so that the claim
compares the spec's wording against the code's computation. -/
def specValidationCorrelation (low_mag_img high_mag_img : Arr2)
    (box : ℤ × ℤ × ℤ × ℤ) : ℚ :=
  arrMean ⟨(cropOf low_mag_img box).h, (cropOf low_mag_img box).w, fun i j =>
    (((cropOf low_mag_img box).pix i j - arrMean (cropOf low_mag_img box)) /
      (arrStd (cropOf low_mag_img box) + eps)) *
    (((resizeTo high_mag_img (cropOf low_mag_img box).h
        (cropOf low_mag_img box).w).pix i j -
      arrMean (resizeTo high_mag_img (cropOf low_mag_img box).h
        (cropOf low_mag_img box).w)) /
      (arrStd (resizeTo high_mag_img (cropOf low_mag_img box).h
        (cropOf low_mag_img box).w) + eps))⟩

/-- **C5** (confirmed).  On a non-empty crop the validator resamples the
high-mag image to the crop's exact shape, and its returned correlation is the
spec's formula — mean elementwise product of the two `(x - mean)/(std + 1e-8)`
normalized arrays — with `valid = true` exactly when that correlation
strictly exceeds the threshold. -/
theorem C5_validate_formula (low high : Arr2) (box : ℤ × ℤ × ℤ × ℤ) (t : ℚ)
    (hne : ¬ (cropOf low box).h * (cropOf low box).w = 0) :
    (resizeTo high (cropOf low box).h (cropOf low box).w).h =
      (cropOf low box).h ∧
    (resizeTo high (cropOf low box).h (cropOf low box).w).w =
      (cropOf low box).w ∧
    (validate_zoom_match low high box t).correlation =
      specValidationCorrelation low high box ∧
    ((validate_zoom_match low high box t).valid = true ↔
      t < specValidationCorrelation low high box) := by
  have heq : validateCorrelation low high box =
      specValidationCorrelation low high box := rfl
  unfold validate_zoom_match
  rw [if_neg hne]
  refine ⟨rfl, rfl, ?_, ?_⟩
  · split
    · exact heq
    · exact heq
  · split
    · rename_i hlt
      simp only [true_iff]
      exact heq ▸ hlt
    · rename_i hlt
      simp only [reduceCtorEq, false_iff]
      exact fun hc => hlt (heq ▸ hc)

theorem C5_witness :
    (resizeTo (zeroArr 4 4) (cropOf (zeroArr 4 4) (0, 0, 2, 2)).h
      (cropOf (zeroArr 4 4) (0, 0, 2, 2)).w).h =
        (cropOf (zeroArr 4 4) (0, 0, 2, 2)).h ∧
    (validate_zoom_match (zeroArr 4 4) (zeroArr 4 4) (0, 0, 2, 2)
        (3 / 10)).correlation =
      specValidationCorrelation (zeroArr 4 4) (zeroArr 4 4) (0, 0, 2, 2) ∧
    ((validate_zoom_match (zeroArr 4 4) (zeroArr 4 4) (0, 0, 2, 2)
        (3 / 10)).valid = true ↔
      3 / 10 < specValidationCorrelation (zeroArr 4 4) (zeroArr 4 4)
        (0, 0, 2, 2)) := by
  have h := C5_validate_formula (zeroArr 4 4) (zeroArr 4 4) (0, 0, 2, 2) (3 / 10)
    (of_decide_eq_true (by with_unfolding_all rfl))
  exact ⟨h.1, h.2.2.1, h.2.2.2⟩

/-! ## Claim C8: valid-mode output shape -/

/-- **C8** (confirmed).  For every image and template with the template
fitting in both dimensions, the correlation engine returns the valid-mode
shape `(imageH - templateH + 1, imageW - templateW + 1)`, and so does the
direct sliding-window fallback `_naive_correlate` on the same inputs. -/
theorem C8_correlate_shape (image template : Arr2)
    (hh : template.h ≤ image.h) (hw : template.w ≤ image.w) :
    ((_fft_correlate image template).h = image.h - template.h + 1 ∧
     (_fft_correlate image template).w = image.w - template.w + 1) ∧
    ((_naive_correlate image template).h = image.h - template.h + 1 ∧
     (_naive_correlate image template).w = image.w - template.w + 1) :=
  ⟨fft_correlate_shape image template hh hw,
   naive_correlate_shape image template hh hw⟩

theorem C8_witness :
    ((_fft_correlate (zeroArr 10 10) (zeroArr 8 9)).h = 3 ∧
     (_fft_correlate (zeroArr 10 10) (zeroArr 8 9)).w = 2 ∧
     (_naive_correlate (zeroArr 10 10) (zeroArr 8 9)).h = 3 ∧
     (_naive_correlate (zeroArr 10 10) (zeroArr 8 9)).w = 2) := by
  have h := C8_correlate_shape (zeroArr 10 10) (zeroArr 8 9)
    (by decide) (by decide)
  refine ⟨?_, ?_, ?_, ?_⟩
  · rw [h.1.1]
    rfl
  · rw [h.1.2]
    rfl
  · rw [h.2.1]
    rfl
  · rw [h.2.2]
    rfl

/-! ## Claim C9: determinism -/

/-- **C9** (confirmed).  `find_zoom_region` is a pure function of its inputs
and parameters: two runs on identical inputs that both return a result return
the same box, scale and correlation. -/
theorem C9_deterministic (low high : Arr2) (sr : ℚ × ℚ) (n : ℕ)
    (r1 r2 : FindResult)
    (h1 : find_zoom_region low high sr n = .ok r1)
    (h2 : find_zoom_region low high sr n = .ok r2) :
    r1.box = r2.box ∧ r1.scale = r2.scale ∧ r1.correlation = r2.correlation := by
  rw [h1] at h2
  rw [(Except.ok.injEq _ _).mp h2]
  exact ⟨rfl, rfl, rfl⟩

theorem C9_witness :
    (FindResult.mk (0, 0, 10, 10) 1 0 (5, 5)).box =
      (FindResult.mk (0, 0, 10, 10) 1 0 (5, 5)).box ∧
    (FindResult.mk (0, 0, 10, 10) 1 0 (5, 5)).scale =
      (FindResult.mk (0, 0, 10, 10) 1 0 (5, 5)).scale ∧
    (FindResult.mk (0, 0, 10, 10) 1 0 (5, 5)).correlation =
      (FindResult.mk (0, 0, 10, 10) 1 0 (5, 5)).correlation :=
  C9_deterministic (zeroArr 10 10) (zeroArr 10 10) (1, 1) 1
    (FindResult.mk (0, 0, 10, 10) 1 0 (5, 5))
    (FindResult.mk (0, 0, 10, 10) 1 0 (5, 5))
    run_z10_z10 run_z10_z10

/-! ## Claim C2: bounds of the returned box -/

/-- **C2** (amended).  Whenever `find_zoom_region` returns a box
`(x1, y1, x2, y2)`, the coordinates satisfy `0 ≤ x1 < x2` and `0 ≤ y1 < y2`
unconditionally; and `x2 ≤ low_mag_width`, `y2 ≤ low_mag_height` hold
provided every non-skipped candidate's template fits inside the low-mag
image.  Without that proviso the bound fails: an oversized template's
degenerate fallback surface can win (see `C2_counterexample`). -/
theorem C2_box_bounds (low high : Arr2) (sr : ℚ × ℚ) (n : ℕ) (r : FindResult)
    (hok : find_zoom_region low high sr n = .ok r) :
    (0 ≤ r.box.1 ∧ r.box.1 < r.box.2.2.1 ∧
     0 ≤ r.box.2.1 ∧ r.box.2.1 < r.box.2.2.2) ∧
    ((∀ s ∈ linspace sr.1 sr.2 n, ¬ candSkip (_sobel_magnitude high) s →
        (_downsample (_sobel_magnitude high) s).h ≤ low.h ∧
        (_downsample (_sobel_magnitude high) s).w ≤ low.w) →
      r.box.2.2.1 ≤ (low.w : ℤ) ∧ r.box.2.2.2 ≤ (low.h : ℤ)) := by
  obtain ⟨wn, hfo, hbox, hscale, hcorr, hcenter⟩ := find_ok_inv low high sr n r hok
  have hinv := loopInv_findBest low high sr n
  obtain ⟨c, fo, hfb⟩ : ∃ c fo, findBest low high sr n = ⟨c, fo⟩ :=
    ⟨(findBest low high sr n).correlation, (findBest low high sr n).found, rfl⟩
  rw [hfb] at hfo hinv
  have : fo = some wn := hfo
  subst this
  unfold loopInv at hinv
  obtain ⟨hc, hsk, hcorr2, hpos, hsh, l1, l2, hl, hbefore, hafter⟩ := hinv
  have hdims : 10 ≤ (_downsample (_sobel_magnitude high) wn.scale).h ∧
      10 ≤ (_downsample (_sobel_magnitude high) wn.scale).w := by
    unfold candSkip at hsk
    push_neg at hsk
    exact hsk
  constructor
  · rw [hbox, hsh]
    refine ⟨?_, ?_, ?_, ?_⟩
    · exact Int.natCast_nonneg _
    · show (wn.pos.2 : ℤ) <
        (wn.pos.2 : ℤ) + ((_downsample (_sobel_magnitude high) wn.scale).w : ℤ)
      omega
    · exact Int.natCast_nonneg _
    · show (wn.pos.1 : ℤ) <
        (wn.pos.1 : ℤ) + ((_downsample (_sobel_magnitude high) wn.scale).h : ℤ)
      omega
  · intro hfit
    have hmem : wn.scale ∈ linspace sr.1 sr.2 n := by
      rw [hl]
      exact List.mem_append_right l1 (List.mem_cons_self _ _)
    have hfits := hfit wn.scale hmem hsk
    have hshape := fft_correlate_shape (_sobel_magnitude low)
      (_downsample (_sobel_magnitude high) wn.scale)
      (le_trans hfits.1 (le_refl _)) (le_trans hfits.2 (le_refl _))
    have hp := fft_correlate_pos (_sobel_magnitude low)
      (_downsample (_sobel_magnitude high) wn.scale)
    have hlt := argmaxPos_lt (candSurf (_sobel_magnitude low)
      (_sobel_magnitude high) wn.scale) hp.1 hp.2
    rw [← hpos] at hlt
    have hlt1 : wn.pos.1 < low.h - (_downsample (_sobel_magnitude high) wn.scale).h + 1 := by
      have := hlt.1
      unfold candSurf at this
      rw [hshape.1] at this
      exact this
    have hlt2 : wn.pos.2 < low.w - (_downsample (_sobel_magnitude high) wn.scale).w + 1 := by
      have := hlt.2
      unfold candSurf at this
      rw [hshape.2] at this
      exact this
    rw [hbox, hsh]
    constructor
    · show (wn.pos.2 : ℤ) +
        ((_downsample (_sobel_magnitude high) wn.scale).w : ℤ) ≤ (low.w : ℤ)
      have := hfits.2
      omega
    · show (wn.pos.1 : ℤ) +
        ((_downsample (_sobel_magnitude high) wn.scale).h : ℤ) ≤ (low.h : ℤ)
      have := hfits.1
      omega

theorem C2_witness :
    (0 ≤ (FindResult.mk (0, 0, 10, 10) 1 0 (5, 5)).box.1 ∧
     (FindResult.mk (0, 0, 10, 10) 1 0 (5, 5)).box.1 <
       (FindResult.mk (0, 0, 10, 10) 1 0 (5, 5)).box.2.2.1 ∧
     0 ≤ (FindResult.mk (0, 0, 10, 10) 1 0 (5, 5)).box.2.1 ∧
     (FindResult.mk (0, 0, 10, 10) 1 0 (5, 5)).box.2.1 <
       (FindResult.mk (0, 0, 10, 10) 1 0 (5, 5)).box.2.2.2) ∧
    ((FindResult.mk (0, 0, 10, 10) 1 0 (5, 5)).box.2.2.1 ≤
       ((zeroArr 10 10).w : ℤ) ∧
     (FindResult.mk (0, 0, 10, 10) 1 0 (5, 5)).box.2.2.2 ≤
       ((zeroArr 10 10).h : ℤ)) := by
  have h := C2_box_bounds (zeroArr 10 10) (zeroArr 10 10) (1, 1) 1
    (FindResult.mk (0, 0, 10, 10) 1 0 (5, 5)) run_z10_z10
  exact ⟨h.1, h.2 (of_decide_eq_true (by with_unfolding_all rfl))⟩

/-- **C2** counterexample.  Low-mag image 10x10, high-mag image 13x13, one
scale candidate `1`: the 13x13 template passes the `≥ 10` check, the fast
correlation path fails (oversized), the fallback returns the degenerate `1x1`
zero surface, its peak `0 > -1` wins, and the returned box `(0, 0, 13, 13)`
violates `x2 ≤ low_mag_width` and `y2 ≤ low_mag_height`. -/
theorem C2_counterexample :
    find_zoom_region (zeroArr 10 10) (zeroArr 13 13) (1, 1) 1 =
      .ok ⟨(0, 0, 13, 13), 1, 0, (6, 6)⟩ ∧
    ¬ ((FindResult.mk (0, 0, 13, 13) 1 0 (6, 6)).box.2.2.1 ≤
        ((zeroArr 10 10).w : ℤ)) ∧
    ¬ ((FindResult.mk (0, 0, 13, 13) 1 0 (6, 6)).box.2.2.2 ≤
        ((zeroArr 10 10).h : ℤ)) :=
  ⟨run_z10_z13, by decide, by decide⟩

/-! ## Claim C3: oversized templates at the correlation stage -/

/-- **C3** (amended).  A template exceeding the search image in either
dimension makes the fast primitive fail with `InvalidTemplateSize`; the
failure is recovered locally — `_fft_correlate` returns the fallback's
degenerate `1x1` zero surface instead of raising — so the scale loop
continues over the remaining candidates and no fatal error surfaces.  But
the candidate does contribute a surface with peak `0` at position `(0, 0)`,
so — contrary to the claim — it can be selected as the winning candidate
(see `C3_counterexample`). -/
theorem C3_oversized_recovered (image template : Arr2)
    (hover : image.h < template.h ∨ image.w < template.w) :
    _fft_correlate image template = ⟨1, 1, fun _ _ => 0⟩ ∧
    arrMax (_fft_correlate image template) = 0 ∧
    argmaxPos (_fft_correlate image template) = (0, 0) := by
  have he := fft_correlate_oversized image template hover
  refine ⟨he, ?_, ?_⟩
  · rw [he]
    exact arrMax_of_zero _ (fun _ _ => rfl) Nat.one_pos Nat.one_pos
  · rw [he]
    exact argmaxPos_of_zero _ (fun _ _ => rfl) Nat.one_pos Nat.one_pos

theorem C3_witness :
    _fft_correlate (zeroArr 10 10) (zeroArr 12 12) = ⟨1, 1, fun _ _ => 0⟩ ∧
    arrMax (_fft_correlate (zeroArr 10 10) (zeroArr 12 12)) = 0 ∧
    argmaxPos (_fft_correlate (zeroArr 10 10) (zeroArr 12 12)) = (0, 0) :=
  C3_oversized_recovered (zeroArr 10 10) (zeroArr 12 12) (Or.inl (by decide))

/-- **C3** counterexample.  The oversized candidate is not only kept in the
search, it wins: with a 10x10 low-mag image, a 12x12 high-mag image and the
single scale `1`, the winning scale's template is 12x12 — strictly larger
than the search image in both dimensions — and the call returns it as the
match. -/
theorem C3_counterexample :
    find_zoom_region (zeroArr 10 10) (zeroArr 12 12) (1, 1) 1 =
      .ok ⟨(0, 0, 12, 12), 1, 0, (6, 6)⟩ ∧
    (zeroArr 10 10).h < (_downsample (_sobel_magnitude (zeroArr 12 12)) 1).h ∧
    (zeroArr 10 10).w < (_downsample (_sobel_magnitude (zeroArr 12 12)) 1).w :=
  ⟨run_z10_z12, of_decide_eq_true (by with_unfolding_all rfl),
   of_decide_eq_true (by with_unfolding_all rfl)⟩

/-! ## Claim C7: output conversion from the winning peak -/

/-- **C7** (amended).  The winning peak position `(row, col)` and template
shape `(h, w)` determine the outputs as `box = (col, row, col + w, row + h)`
and `center = (⌊col + w/2⌋, ⌊row + h/2⌋)` — Python's `int()` truncates the
half-pixel, so the center is the floor of `(col + w/2, row + h/2)`, equal to
it only when `w` (resp. `h`) is even; `C7_counterexample` shows the
difference at an odd width. -/
theorem C7_output_conversion (low high : Arr2) (sr : ℚ × ℚ) (n : ℕ)
    (c : ℚ) (wn : Winner)
    (h : findBest low high sr n = ⟨c, some wn⟩) :
    find_zoom_region low high sr n =
      .ok ⟨((wn.pos.2 : ℤ), (wn.pos.1 : ℤ),
            (wn.pos.2 : ℤ) + (wn.tshape.2 : ℤ),
            (wn.pos.1 : ℤ) + (wn.tshape.1 : ℤ)),
           wn.scale, c,
           (⌊(wn.pos.2 : ℚ) + (wn.tshape.2 : ℚ) / 2⌋,
            ⌊(wn.pos.1 : ℚ) + (wn.tshape.1 : ℚ) / 2⌋)⟩ := by
  unfold find_zoom_region
  rw [h]
  dsimp only
  have hx : pyTrunc ((wn.pos.2 : ℚ) + (wn.tshape.2 : ℚ) / 2) =
      ⌊(wn.pos.2 : ℚ) + (wn.tshape.2 : ℚ) / 2⌋ := by
    unfold pyTrunc
    rw [if_pos (by positivity)]
  have hy : pyTrunc ((wn.pos.1 : ℚ) + (wn.tshape.1 : ℚ) / 2) =
      ⌊(wn.pos.1 : ℚ) + (wn.tshape.1 : ℚ) / 2⌋ := by
    unfold pyTrunc
    rw [if_pos (by positivity)]
  rw [hx, hy]

theorem best_z10_z10 :
    findBest (zeroArr 10 10) (zeroArr 10 10) (1, 1) 1 =
      ⟨0, some ⟨1, (0, 0), (10, 10)⟩⟩ := by
  unfold findBest
  rw [show linspace (((1 : ℚ), (1 : ℚ))).1 (((1 : ℚ), (1 : ℚ))).2 1 = [1] from
      linspace_one 1 1,
    List.foldl_cons, List.foldl_nil,
    stepScale_zero_start _ _ (isZero_sobel (isZero_zeroArr 10 10))
      (isZero_sobel (isZero_zeroArr 10 10)) 1,
    if_neg (of_decide_eq_true (by with_unfolding_all rfl) :
      ¬ candSkip (_sobel_magnitude (zeroArr 10 10)) 1)]
  have h1 : (_downsample (_sobel_magnitude (zeroArr 10 10)) 1).h = 10 := by
    with_unfolding_all rfl
  have h2 : (_downsample (_sobel_magnitude (zeroArr 10 10)) 1).w = 10 := by
    with_unfolding_all rfl
  rw [h1, h2]

theorem C7_witness :
    find_zoom_region (zeroArr 10 10) (zeroArr 10 10) (1, 1) 1 =
      .ok ⟨(0, 0, 0 + 10, 0 + 10), 1, 0,
           (⌊(0 : ℚ) + 10 / 2⌋, ⌊(0 : ℚ) + 10 / 2⌋)⟩ := by
  have h := C7_output_conversion (zeroArr 10 10) (zeroArr 10 10) (1, 1) 1 0
    ⟨1, (0, 0), (10, 10)⟩ best_z10_z10
  exact h

/-- **C7** counterexample.  At the odd template width 11 the code's center
`(int (0 + 11/2), int (0 + 11/2)) = (5, 5)` differs from the claim's
`(col + w/2, row + h/2) = (5.5, 5.5)`. -/
theorem C7_counterexample :
    find_zoom_region (zeroArr 11 11) (zeroArr 11 11) (1, 1) 1 =
      .ok ⟨(0, 0, 11, 11), 1, 0, (5, 5)⟩ ∧
    ¬ ((((FindResult.mk (0, 0, 11, 11) 1 0 (5, 5)).center.1 : ℚ) =
          (0 : ℚ) + 11 / 2) ∧
       (((FindResult.mk (0, 0, 11, 11) 1 0 (5, 5)).center.2 : ℚ) =
          (0 : ℚ) + 11 / 2)) := by
  refine ⟨run_z11_z11, ?_⟩
  intro ⟨h1, _⟩
  norm_num at h1

/-! ## Claim C6: scale grid and global argmax -/

theorem linspace_length (a b : ℚ) (n : ℕ) : (linspace a b n).length = n := by
  unfold linspace
  split
  · rw [List.length_map, List.length_range]
  · rw [List.length_map, List.length_range]

theorem linspace_getD (a b : ℚ) (n k : ℕ) (h2 : 2 ≤ n) (hk : k < n) :
    (linspace a b n).getD k 0 = a + (b - a) * (k : ℚ) / ((n : ℚ) - 1) := by
  unfold linspace
  rw [if_neg (by omega), List.getD_eq_getElem?_getD, List.getElem?_map,
    List.getElem?_range hk]
  rfl

/-- **C6** (amended).  `find_zoom_region` generates exactly `steps` scale
values; for `steps ≥ 2` they are evenly spaced with both endpoints attained
(first value `min`, last value `max`, consecutive difference
`(max - min)/(steps - 1)`), while `steps = 1` yields the single value `min`
without `max` (`C6_counterexample`).  Whenever a result is returned, its
correlation is the global maximum over every candidate's surface values at
every position, its scale is a non-skipped generated scale attaining that
peak, and every earlier non-skipped scale stays strictly below it (first
encountered attainer wins, in the generated — ascending, for `min ≤ max` —
order). -/
theorem C6_scales_and_argmax (low high : Arr2) (a b : ℚ) (n : ℕ) :
    (linspace a b n).length = n ∧
    (2 ≤ n →
      (linspace a b n).getD 0 0 = a ∧
      (linspace a b n).getD (n - 1) 0 = b ∧
      ∀ k, k + 1 < n →
        (linspace a b n).getD (k + 1) 0 - (linspace a b n).getD k 0 =
          (b - a) / ((n : ℚ) - 1)) ∧
    (∀ r : FindResult, find_zoom_region low high (a, b) n = .ok r →
      r.scale ∈ linspace a b n ∧
      ¬ candSkip (_sobel_magnitude high) r.scale ∧
      r.correlation =
        candPeak (_sobel_magnitude low) (_sobel_magnitude high) r.scale ∧
      (∀ s ∈ linspace a b n, ¬ candSkip (_sobel_magnitude high) s →
        candPeak (_sobel_magnitude low) (_sobel_magnitude high) s ≤
          r.correlation) ∧
      (∀ s ∈ linspace a b n, ¬ candSkip (_sobel_magnitude high) s →
        ∀ i j,
          i < (candSurf (_sobel_magnitude low) (_sobel_magnitude high) s).h →
          j < (candSurf (_sobel_magnitude low) (_sobel_magnitude high) s).w →
          (candSurf (_sobel_magnitude low) (_sobel_magnitude high) s).pix i j ≤
            r.correlation) ∧
      (∃ l1 l2, linspace a b n = l1 ++ r.scale :: l2 ∧
        ∀ s ∈ l1, ¬ candSkip (_sobel_magnitude high) s →
          candPeak (_sobel_magnitude low) (_sobel_magnitude high) s <
            r.correlation)) := by
  refine ⟨linspace_length a b n, ?_, ?_⟩
  · intro h2
    have hne : ((n : ℚ) - 1) ≠ 0 := by
      have hcast : (2 : ℚ) ≤ (n : ℚ) := by exact_mod_cast h2
      intro hzero
      rw [sub_eq_zero] at hzero
      rw [hzero] at hcast
      norm_num at hcast
    refine ⟨?_, ?_, ?_⟩
    · rw [linspace_getD a b n 0 h2 (by omega)]
      norm_num
    · rw [linspace_getD a b n (n - 1) h2 (by omega),
        Nat.cast_sub (by omega : 1 ≤ n), Nat.cast_one, mul_div_assoc,
        div_self hne, mul_one]
      ring
    · intro k hk
      rw [linspace_getD a b n (k + 1) h2 hk, linspace_getD a b n k h2 (by omega)]
      push_cast
      field_simp
      ring
  · intro r hok
    obtain ⟨wn, hfo, hbox, hscale, hcorr, hcenter⟩ :=
      find_ok_inv low high (a, b) n r hok
    have hinv := loopInv_findBest low high (a, b) n
    obtain ⟨c, fo, hfb⟩ : ∃ c fo, findBest low high (a, b) n = ⟨c, fo⟩ :=
      ⟨(findBest low high (a, b) n).correlation,
       (findBest low high (a, b) n).found, rfl⟩
    rw [hfb] at hfo hinv
    have hfoeq : fo = some wn := hfo
    subst hfoeq
    have hinv2 := hinv
    unfold loopInv at hinv
    obtain ⟨hc, hsk, hcorr2, hpos, hsh, l1, l2, hl, hbefore, hafter⟩ := hinv
    have hrc : r.correlation = c := by rw [hcorr, hfb]
    have hpeakle : ∀ s ∈ linspace a b n,
        ¬ candSkip (_sobel_magnitude high) s →
        candPeak (_sobel_magnitude low) (_sobel_magnitude high) s ≤ c :=
      fun s hs hns => loopInv_le _ _ _ ⟨c, some wn⟩ hinv2 s hs hns
    refine ⟨?_, ?_, ?_, ?_, ?_, ?_⟩
    · rw [hscale, hl]
      exact List.mem_append_right l1 (List.mem_cons_self _ _)
    · rw [hscale]
      exact hsk
    · rw [hscale, hrc]
      exact hcorr2
    · intro s hs hns
      rw [hrc]
      exact hpeakle s hs hns
    · intro s hs hns i j hi hj
      rw [hrc]
      exact le_trans (pix_le_arrMax _ i j hi hj) (hpeakle s hs hns)
    · refine ⟨l1, l2, ?_, fun s hs hns => ?_⟩
      · rw [hscale]
        exact hl
      · rw [hrc]
        exact hbefore s hs hns

theorem best_z10_z10_two :
    findBest (zeroArr 10 10) (zeroArr 10 10) (1, 2) 2 =
      ⟨0, some ⟨1, (0, 0), (10, 10)⟩⟩ := by
  unfold findBest
  have hls : linspace (((1 : ℚ), (2 : ℚ))).1 (((1 : ℚ), (2 : ℚ))).2 2 = [1, 2] := by
    with_unfolding_all rfl
  rw [hls, List.foldl_cons,
    stepScale_zero_start _ _ (isZero_sobel (isZero_zeroArr 10 10))
      (isZero_sobel (isZero_zeroArr 10 10)) 1,
    if_neg (of_decide_eq_true (by with_unfolding_all rfl) :
      ¬ candSkip (_sobel_magnitude (zeroArr 10 10)) 1)]
  have h1 : (_downsample (_sobel_magnitude (zeroArr 10 10)) 1).h = 10 := by
    with_unfolding_all rfl
  have h2 : (_downsample (_sobel_magnitude (zeroArr 10 10)) 1).w = 10 := by
    with_unfolding_all rfl
  rw [h1, h2, List.foldl_cons, List.foldl_nil,
    stepScale_zero_found _ _ (isZero_sobel (isZero_zeroArr 10 10))
      (isZero_sobel (isZero_zeroArr 10 10)) _ 2]

theorem run_z10_z10_two :
    find_zoom_region (zeroArr 10 10) (zeroArr 10 10) (1, 2) 2 =
      .ok ⟨(0, 0, 10, 10), 1, 0, (5, 5)⟩ := by
  unfold find_zoom_region
  rw [best_z10_z10_two]
  dsimp only
  norm_num [pyTrunc_five]

theorem C6_witness :
    (linspace 1 2 2).length = 2 ∧
    (linspace 1 2 2).getD 0 0 = 1 ∧
    (linspace 1 2 2).getD (2 - 1) 0 = 2 ∧
    ((1 : ℚ) ∈ linspace 1 2 2 ∧
     ¬ candSkip (_sobel_magnitude (zeroArr 10 10)) 1) := by
  have h := C6_scales_and_argmax (zeroArr 10 10) (zeroArr 10 10) 1 2 2
  have hb := h.2.1 (by norm_num)
  have hc := h.2.2 (FindResult.mk (0, 0, 10, 10) 1 0 (5, 5)) run_z10_z10_two
  exact ⟨h.1, hb.1, hb.2.1, hc.1, hc.2.1⟩

/-- **C6** counterexample.  With `steps = 1` the generated scale grid — the
`np.linspace` grid `find_zoom_region` iterates over — is the single value
`min`; for `scale_range = (2, 5)` the value `max = 5` is not generated at
all, so the grid does not span `[min, max]` inclusive. -/
theorem C6_counterexample :
    linspace 2 5 1 = [2] ∧ ¬ ((5 : ℚ) ∈ linspace 2 5 1) := by
  refine ⟨linspace_one 2 5, ?_⟩
  rw [linspace_one 2 5]
  intro hmem
  have : (5 : ℚ) = 2 := List.mem_singleton.mp hmem
  norm_num at this

/-! ## Claim C10: Python's negative-index slice semantics in validation -/

theorem belowThresholdMsg_ne (c t : ℚ) :
    belowThresholdMsg c t ≠ "Empty region - box outside image bounds" := by
  unfold belowThresholdMsg
  intro h
  have h2 := congrArg String.data h
  simp [String.data_append] at h2

/-- **C10** (amended).  `validate_zoom_match` crops with Python slice
semantics, so a negative `y1` counts from the bottom edge: for every box with
`-H ≤ y1 < 0`, `y2 > H + y1` and a non-empty x-range `0 ≤ x1 < x2 ≤ W`, the
crop is the one the shifted box `(x1, H + y1, x2, y2)` selects — rows
`H + y1` up to `min y2 H` (the claim's "up to `y2`" holds only when
`y2 ≤ H`; `C10_counterexample` also shows the x-range proviso is needed) —
it is non-empty, the validation result equals that of the shifted box rather
than reading the literal coordinates, and the empty-region failure does not
occur. -/
theorem C10_negative_start_wraps (A B : Arr2) (x1 y1 x2 y2 : ℤ) (t : ℚ)
    (hy1l : -(A.h : ℤ) ≤ y1) (hy1u : y1 < 0) (hy2 : (A.h : ℤ) + y1 < y2)
    (hx1 : 0 ≤ x1) (hx12 : x1 < x2) (hx2 : x2 ≤ (A.w : ℤ)) :
    cropArr A x1 y1 x2 y2 = cropArr A x1 ((A.h : ℤ) + y1) x2 y2 ∧
    (cropArr A x1 y1 x2 y2).h =
      (min y2 (A.h : ℤ)).toNat - ((A.h : ℤ) + y1).toNat ∧
    0 < (cropArr A x1 y1 x2 y2).h * (cropArr A x1 y1 x2 y2).w ∧
    (A.h : ℤ) + y1 ≠ y1 ∧
    validate_zoom_match A B (x1, y1, x2, y2) t =
      validate_zoom_match A B (x1, (A.h : ℤ) + y1, x2, y2) t ∧
    validate_zoom_match A B (x1, y1, x2, y2) t ≠
      ⟨false, 0, "Empty region - box outside image bounds"⟩ := by
  have e1 : sliceIdx y1 A.h = ((A.h : ℤ) + y1).toNat := by
    unfold sliceIdx
    rw [if_pos hy1u]
  have e2 : sliceIdx ((A.h : ℤ) + y1) A.h = ((A.h : ℤ) + y1).toNat := by
    unfold sliceIdx
    rw [if_neg (by omega)]
    omega
  have e3 : sliceIdx y2 A.h = (min y2 (A.h : ℤ)).toNat := by
    unfold sliceIdx
    rw [if_neg (by omega)]
    omega
  have e4 : sliceIdx x1 A.w = x1.toNat := by
    unfold sliceIdx
    rw [if_neg (by omega)]
    omega
  have e5 : sliceIdx x2 A.w = x2.toNat := by
    unfold sliceIdx
    rw [if_neg (by omega)]
    omega
  have hcropeq : cropArr A x1 y1 x2 y2 = cropArr A x1 ((A.h : ℤ) + y1) x2 y2 := by
    unfold cropArr
    rw [e1, e2]
  have hshape : (cropArr A x1 y1 x2 y2).h =
      (min y2 (A.h : ℤ)).toNat - ((A.h : ℤ) + y1).toNat := by
    show sliceIdx y2 A.h - sliceIdx y1 A.h = _
    rw [e1, e3]
  have hwidth : (cropArr A x1 y1 x2 y2).w = x2.toNat - x1.toNat := by
    show sliceIdx x2 A.w - sliceIdx x1 A.w = _
    rw [e4, e5]
  have hpos : 0 < (cropArr A x1 y1 x2 y2).h * (cropArr A x1 y1 x2 y2).w := by
    rw [hshape, hwidth]
    have hh : 0 < (min y2 (A.h : ℤ)).toNat - ((A.h : ℤ) + y1).toNat := by omega
    have hw : 0 < x2.toNat - x1.toNat := by omega
    exact Nat.mul_pos hh hw
  have hco : cropOf A (x1, y1, x2, y2) = cropOf A (x1, (A.h : ℤ) + y1, x2, y2) :=
    hcropeq
  have hvc : validateCorrelation A B (x1, y1, x2, y2) =
      validateCorrelation A B (x1, (A.h : ℤ) + y1, x2, y2) := by
    unfold validateCorrelation
    rw [hco]
  have hveq : validate_zoom_match A B (x1, y1, x2, y2) t =
      validate_zoom_match A B (x1, (A.h : ℤ) + y1, x2, y2) t := by
    unfold validate_zoom_match
    rw [hco, hvc]
  refine ⟨hcropeq, hshape, hpos, by omega, hveq, ?_⟩
  unfold validate_zoom_match
  rw [if_neg (by
    show ¬ (cropArr A x1 y1 x2 y2).h * (cropArr A x1 y1 x2 y2).w = 0
    omega)]
  split
  · intro hcontra
    exact Bool.noConfusion (congrArg ValidateResult.valid hcontra)
  · intro hcontra
    exact belowThresholdMsg_ne _ _ (congrArg ValidateResult.message hcontra)

theorem C10_witness :
    cropArr (zeroArr 4 4) 0 (-1) 4 4 =
      cropArr (zeroArr 4 4) 0 (((zeroArr 4 4).h : ℤ) + -1) 4 4 ∧
    (cropArr (zeroArr 4 4) 0 (-1) 4 4).h =
      (min 4 ((zeroArr 4 4).h : ℤ)).toNat - (((zeroArr 4 4).h : ℤ) + -1).toNat ∧
    0 < (cropArr (zeroArr 4 4) 0 (-1) 4 4).h *
        (cropArr (zeroArr 4 4) 0 (-1) 4 4).w ∧
    ((zeroArr 4 4).h : ℤ) + -1 ≠ -1 ∧
    validate_zoom_match (zeroArr 4 4) (zeroArr 4 4) (0, -1, 4, 4) (3 / 10) =
      validate_zoom_match (zeroArr 4 4) (zeroArr 4 4)
        (0, ((zeroArr 4 4).h : ℤ) + -1, 4, 4) (3 / 10) ∧
    validate_zoom_match (zeroArr 4 4) (zeroArr 4 4) (0, -1, 4, 4) (3 / 10) ≠
      ⟨false, 0, "Empty region - box outside image bounds"⟩ :=
  C10_negative_start_wraps (zeroArr 4 4) (zeroArr 4 4) 0 (-1) 4 4 (3 / 10)
    (by decide) (by decide) (by decide) (by decide) (by decide) (by decide)

/-- **C10** counterexample.  The box `(0, -1, 0, 4)` on a 4x4 image satisfies
the claim's stated conditions on `y1`, `y2` (`-H ≤ y1 < 0`, `y2 > H + y1`),
yet its x-slice is empty (`x1 = x2 = 0`), so the crop is empty and
`validate_zoom_match` returns exactly the empty-region failure the claim says
cannot occur. -/
theorem C10_counterexample :
    validate_zoom_match (zeroArr 4 4) (zeroArr 4 4) (0, -1, 0, 4) (3 / 10) =
      ⟨false, 0, "Empty region - box outside image bounds"⟩ ∧
    (-(((zeroArr 4 4).h : ℤ)) ≤ -1 ∧ (-1 : ℤ) < 0 ∧
      ((zeroArr 4 4).h : ℤ) + -1 < 4) := by
  constructor
  · unfold validate_zoom_match
    rw [if_pos (of_decide_eq_true (by with_unfolding_all rfl))]
  · exact ⟨by decide, by decide, by decide⟩
